import Mathlib

/-!
Shallow embedding of the orchestrator core (`src/src/ai4eu/orchestrator.py`):
the pydantic data model (`NodeInfo`, `MessageInfo`, `RPCInfo`, `LinkInfo`),
the `Core` resolver class with its `collect_node_infos` and
`collect_rpc_and_link_infos` methods, and the input-document shapes
(blueprint json / dockerinfo json) those methods read.

Modelling conventions:

* Python objects are mutable and shared by reference; `RPCInfo.incoming`,
  `RPCInfo.outgoing` and `LinkInfo.input`/`LinkInfo.output` alias the same
  objects that sit in `Core.rpcs` / `Core.links`.  The embedding therefore
  stores indices into `Core.rpcs` (for a link's endpoints) and into
  `Core.links` (for an rpc's incoming/outgoing collections) instead of
  nested copies, so that one mutation is visible from every holder.

* `Core.nodes`, `Core.rpcs` and `Core.links` are *class* attributes in the
  Python source (`nodes: Dict[str, NodeInfo] = {}` etc. at class level, only
  ever mutated in place via `self.nodes[k] = v` / `.append`), so they are
  process-wide: constructing a fresh `Core()` does not reset them.  The
  embedding threads the `Core` state explicitly; a run in a fresh process
  starts from `Core.initial`, while a second run through a freshly
  constructed `Core()` in the same process starts from the state the first
  run left behind.

* Python exceptions become an `Option OrchError` paired with the state that
  the raising method leaves behind (the state is what the shared class
  attributes hold after the exception propagates).

* Python `dict` membership/lookup on `self.nodes` becomes `dlookup` over an
  insertion-ordered association list with unique keys.
-/

namespace AI4EU

/-- `NodeInfo` pydantic model: container name, host (dockerinfo `ip_address`), port. -/
structure NodeInfo where
  container_name : String
  host : String
  port : Nat
deriving DecidableEq

/-- `MessageInfo` pydantic model: message name and stream flag. -/
structure MessageInfo where
  name : String
  stream : Bool
deriving DecidableEq

/-- `RPCInfo` pydantic model.  `incoming`/`outgoing` are the mutable link
collections; each entry is an index into `Core.links` (Python holds object
references into the same shared list). -/
structure RPCInfo where
  node : NodeInfo
  operation : String
  input : MessageInfo
  output : MessageInfo
  incoming : List Nat
  outgoing : List Nat
deriving DecidableEq

/-- `LinkInfo` pydantic model.  `inputIdx`/`outputIdx` are the indices of the
producer/consumer `RPCInfo` in `Core.rpcs` (Python's `input`/`output` fields
hold references to those shared objects). -/
structure LinkInfo where
  inputIdx : Nat
  outputIdx : Nat
  message_name : String
deriving DecidableEq

/-- One entry of the dockerinfo json's `docker_info_list`. -/
structure DockerInfoEntry where
  container_name : String
  ip_address : String
  port : Nat
deriving DecidableEq

/-- The dockerinfo (inventory) json document, as read by `collect_node_infos`. -/
structure DockerInfo where
  docker_info_list : List DockerInfoEntry
deriving DecidableEq

/-- The nested `operation_signature` object inside a `connected_to` entry
(only its `operation_name` field is read). -/
structure ConnOperationSig where
  operation_name : String
deriving DecidableEq

/-- One `connected_to` entry of a blueprint operation signature. -/
structure ConnectedTo where
  container_name : String
  operation_signature : ConnOperationSig
deriving DecidableEq

/-- The `operation_signature` object of a blueprint signature entry. -/
structure OperationSignature where
  operation_name : String
  input_message_name : String
  input_message_stream : Bool
  output_message_name : String
  output_message_stream : Bool
deriving DecidableEq

/-- One entry of a blueprint node's `operation_signature_list`. -/
structure SigConn where
  operation_signature : OperationSignature
  connected_to : List ConnectedTo
deriving DecidableEq

/-- One entry of the blueprint json's `nodes` list. -/
structure BlueprintNode where
  container_name : String
  operation_signature_list : List SigConn
deriving DecidableEq

/-- The blueprint json document. -/
structure Blueprint where
  nodes : List BlueprintNode
deriving DecidableEq

/-- The exceptions the orchestrator core raises:
`duplicateContainer` and `missingContainer` are the two `ValueError`s of
`collect_node_infos`; `keyError` is the `KeyError` raised by `self.nodes[...]`
lookups in `collect_rpc_and_link_infos`; `cardinalityError i observed expected`
is the `RuntimeError` of the interlinking pass, identifying the offending rpc
by its index in `Core.rpcs` and carrying the observed and expected incoming
link counts. -/
inductive OrchError where
  | duplicateContainer (name : String)
  | missingContainer (name : String)
  | keyError (name : String)
  | cardinalityError (rpcIdx observed expected : Nat)
deriving DecidableEq

/-- The `Core` class state.  All three collections are Python *class*
attributes, shared by every `Core()` instance in a process and never rebound,
only mutated in place. -/
structure Core where
  nodes : List (String × NodeInfo)
  rpcs : List RPCInfo
  links : List LinkInfo
deriving DecidableEq

/-- The class-attribute state of a fresh Python process
(`nodes = {}`, `rpcs = []`, `links = []`). -/
def Core.initial : Core := ⟨[], [], []⟩

/-- Python dict lookup on the insertion-ordered `self.nodes` mapping
(keys are unique because insertion is guarded by a membership check). -/
def dlookup (k : String) : List (String × NodeInfo) → Option NodeInfo
  | [] => none
  | (k₁, v) :: rest => if k = k₁ then some v else dlookup k rest

/-- The dockerinfo-extraction loop of `collect_node_infos`: for each entry
build a `NodeInfo`, raise `duplicateContainer` if its name is already a key,
else insert it.  Returns the mapping as mutated up to the point of the
exception, paired with the exception if one was raised. -/
def collect_node_infos_aux (ns : List (String × NodeInfo)) :
    List DockerInfoEntry → List (String × NodeInfo) × Option OrchError
  | [] => (ns, none)
  | di :: rest =>
    let ni : NodeInfo := ⟨di.container_name, di.ip_address, di.port⟩
    if (dlookup ni.container_name ns).isSome then
      (ns, some (OrchError.duplicateContainer ni.container_name))
    else
      collect_node_infos_aux (ns ++ [(ni.container_name, ni)]) rest

/-- `Core.collect_node_infos`: consume the dockerinfo list into `self.nodes`,
then verify every blueprint node's `container_name` is a key of `self.nodes`
(raising `missingContainer` at the first one that is not). -/
def Core.collect_node_infos (c : Core) (bpjson : Blueprint) (dijson : DockerInfo) :
    Core × Option OrchError :=
  match collect_node_infos_aux c.nodes dijson.docker_info_list with
  | (ns, some e) => ({ c with nodes := ns }, some e)
  | (ns, none) =>
    match bpjson.nodes.find? (fun n => (dlookup n.container_name ns).isNone) with
    | some n => ({ c with nodes := ns }, some (OrchError.missingContainer n.container_name))
    | none => ({ c with nodes := ns }, none)

/-- A pending outgoing-link descriptor, one entry of the local `link_partial`
list: producer rpc (by its index in `Core.rpcs`), the producer signature's
output message name, and the target node / target operation name. -/
structure LinkPartial where
  inputIdx : Nat
  message_name : String
  output_node : NodeInfo
  output_operation : String
deriving DecidableEq

/-- The `connected_to` inner loop for one signature: for each entry look up
the target container in `self.nodes` (raising `keyError` if absent) and
append a pending descriptor for the rpc at index `idx`. -/
def connected_aux (nodes : List (String × NodeInfo)) (idx : Nat) (mname : String)
    (lps : List LinkPartial) :
    List ConnectedTo → List LinkPartial × Option OrchError
  | [] => (lps, none)
  | con :: rest =>
    match dlookup con.container_name nodes with
    | none => (lps, some (OrchError.keyError con.container_name))
    | some onode =>
      connected_aux nodes idx mname
        (lps ++ [⟨idx, mname, onode, con.operation_signature.operation_name⟩]) rest

/-- The `operation_signature_list` loop for one blueprint node: build each
rpc (looking up the node's container in `self.nodes`, `keyError` if absent),
collect its pending outgoing descriptors, then append the rpc to `self.rpcs`.
On an exception, `self.rpcs` keeps only the rpcs appended before it. -/
def extract_sigs_aux (nodes : List (String × NodeInfo)) (cname : String)
    (rpcs : List RPCInfo) (lps : List LinkPartial) :
    List SigConn → (List RPCInfo × List LinkPartial) × Option OrchError
  | [] => ((rpcs, lps), none)
  | sc :: rest =>
    match dlookup cname nodes with
    | none => ((rpcs, lps), some (OrchError.keyError cname))
    | some ni =>
      match connected_aux nodes rpcs.length sc.operation_signature.output_message_name
          lps sc.connected_to with
      | (lps₁, some e) => ((rpcs, lps₁), some e)
      | (lps₁, none) =>
        extract_sigs_aux nodes cname
          (rpcs ++ [⟨ni, sc.operation_signature.operation_name,
            ⟨sc.operation_signature.input_message_name,
             sc.operation_signature.input_message_stream⟩,
            ⟨sc.operation_signature.output_message_name,
             sc.operation_signature.output_message_stream⟩, [], []⟩]) lps₁ rest

/-- The outer blueprint-`nodes` loop of the extraction pass. -/
def extract_nodes_aux (nodes : List (String × NodeInfo))
    (rpcs : List RPCInfo) (lps : List LinkPartial) :
    List BlueprintNode → (List RPCInfo × List LinkPartial) × Option OrchError
  | [] => ((rpcs, lps), none)
  | bn :: rest =>
    match extract_sigs_aux nodes bn.container_name rpcs lps bn.operation_signature_list with
    | (st, some e) => (st, some e)
    | ((rpcs₁, lps₁), none) => extract_nodes_aux nodes rpcs₁ lps₁ rest

/-- Replace the element at index `i` by `f` of it (identity out of range);
models an in-place mutation of the shared rpc object at that index. -/
def updateAt (i : Nat) (f : RPCInfo → RPCInfo) : List RPCInfo → List RPCInfo
  | [] => []
  | r :: rest =>
    match i with
    | 0 => f r :: rest
    | j + 1 => r :: updateAt j f rest

/-- The `incoming_links` selection for one rpc: the pending descriptors whose
target node equals the rpc's node and target operation name equals the rpc's
operation name (pydantic `==` is structural equality). -/
def incomingLinks (lps : List LinkPartial) (r : RPCInfo) : List LinkPartial :=
  lps.filter (fun lp =>
    decide (lp.output_node = r.node ∧ lp.output_operation = r.operation))

/-- `len(incoming_links)` for one rpc. -/
def matchCount (lps : List LinkPartial) (r : RPCInfo) : Nat :=
  (incomingLinks lps r).length

/-- `expected_incoming_links`: 0 for the `Empty` input sentinel, else 1. -/
def expectedCount (r : RPCInfo) : Nat := if r.input.name = "Empty" then 0 else 1

/-- In-place append of a link index to an rpc's `outgoing` collection
(`link.input.outgoing.append(link)`). -/
def addOut (k : Nat) (r : RPCInfo) : RPCInfo := { r with outgoing := r.outgoing ++ [k] }

/-- In-place append of a link index to an rpc's `incoming` collection
(`link.output.incoming.append(link)`). -/
def addInc (k : Nat) (r : RPCInfo) : RPCInfo := { r with incoming := r.incoming ++ [k] }

/-- The interlinking loop of `collect_rpc_and_link_infos`, iterating the rpc
indices in `is`: for each rpc select its matching descriptors, raise
`cardinalityError` if their count differs from the expected 0-or-1, else (in
the expected-1 case) create a `LinkInfo` from the first match, append it to
`self.links`, and register its index in the producer's `outgoing` and the
consumer's `incoming`.  On an exception, `self.rpcs`/`self.links` keep the
mutations made before it. -/
def resolve_aux (lps : List LinkPartial) (rpcs : List RPCInfo) (links : List LinkInfo) :
    List Nat → (List RPCInfo × List LinkInfo) × Option OrchError
  | [] => ((rpcs, links), none)
  | i :: rest =>
    match rpcs[i]? with
    | none => resolve_aux lps rpcs links rest
    | some r =>
      if matchCount lps r ≠ expectedCount r then
        ((rpcs, links),
         some (OrchError.cardinalityError i (matchCount lps r) (expectedCount r)))
      else
        match incomingLinks lps r with
        | [] => resolve_aux lps rpcs links rest
        | lp :: _ =>
          resolve_aux lps
            (updateAt i (addInc links.length)
              (updateAt lp.inputIdx (addOut links.length) rpcs))
            (links ++ [⟨lp.inputIdx, i, lp.message_name⟩]) rest

/-- The interlinking pass over the whole of `self.rpcs` (`for rpc in self.rpcs`
visits each index once, in order; in-place mutations never change the list's
length). -/
def resolve_links (lps : List LinkPartial) (rpcs : List RPCInfo) (links : List LinkInfo) :
    (List RPCInfo × List LinkInfo) × Option OrchError :=
  resolve_aux lps rpcs links (List.range rpcs.length)

/-- `Core.collect_rpc_and_link_infos`: the extraction pass (appending to
`self.rpcs`, building the local `link_partial`) followed, only if extraction
raised nothing, by the interlinking pass over `self.rpcs` appending to
`self.links`. -/
def Core.collect_rpc_and_link_infos (c : Core) (bpjson : Blueprint) :
    Core × Option OrchError :=
  match extract_nodes_aux c.nodes c.rpcs [] bpjson.nodes with
  | ((rpcs₁, _), some e) => ({ c with rpcs := rpcs₁ }, some e)
  | ((rpcs₁, lps), none) =>
    match resolve_links lps rpcs₁ c.links with
    | ((rpcs₂, links₂), oe) => ({ c with rpcs := rpcs₂, links := links₂ }, oe)

/-- One full resolution run as `test_orchestrator` performs it on a `Core`
object: `collect_node_infos` then, if it raised nothing,
`collect_rpc_and_link_infos`.  The `Core` argument is the class-attribute
state when the run starts (`Core.initial` in a fresh process). -/
def run_orchestrator (c : Core) (bp : Blueprint) (di : DockerInfo) :
    Core × Option OrchError :=
  match c.collect_node_infos bp di with
  | (c₁, some e) => (c₁, some e)
  | (c₁, none) => c₁.collect_rpc_and_link_infos bp

/-! Concrete input documents used by the scenario theorems and witnesses. -/

/-- The deployed node of spec Scenario A. -/
def nA : NodeInfo := ⟨"A", "10.0.0.1", 9000⟩

/-- A second deployed node, used by the two-node scenarios. -/
def nB : NodeInfo := ⟨"B", "10.0.0.2", 9001⟩

/-- Scenario A inventory: one container `"A"` at `10.0.0.1:9000`. -/
def diA : DockerInfo := ⟨[⟨"A", "10.0.0.1", 9000⟩]⟩

/-- Scenario A blueprint: node `"A"` with one operation `"Solve"`,
input `"Empty"`/non-stream, output `"Result"`/non-stream, no connections. -/
def bpA : Blueprint := ⟨[⟨"A", [⟨⟨"Solve", "Empty", false, "Result", false⟩, []⟩]⟩]⟩

/-- Scenario B inventory: containers `"A"` and `"B"`. -/
def diB : DockerInfo := ⟨[⟨"A", "10.0.0.1", 9000⟩, ⟨"B", "10.0.0.2", 9001⟩]⟩

/-- Scenario B blueprint: `"A"`'s `"Produce"` (output `"Data"`) connected to
`"B"`'s `"Consume"` (input `"Data"`). -/
def bpB : Blueprint :=
  ⟨[⟨"A", [⟨⟨"Produce", "Empty", false, "Data", false⟩, [⟨"B", ⟨"Consume"⟩⟩]⟩]⟩,
    ⟨"B", [⟨⟨"Consume", "Data", false, "Out", false⟩, []⟩]⟩]⟩

/-- Scenario C extracted rpcs: `"A"`'s `"Produce"` and `"B"`'s `"Consume"`,
where `"Consume"`'s input message is the `"Empty"` sentinel. -/
def rpcsC : List RPCInfo :=
  [⟨nA, "Produce", ⟨"Empty", false⟩, ⟨"Data", false⟩, [], []⟩,
   ⟨nB, "Consume", ⟨"Empty", false⟩, ⟨"Done", false⟩, [], []⟩]

/-- Scenario C pending descriptors: the one connection declared from
`"A"`'s `"Produce"` into `"B"`'s `"Consume"`. -/
def lpsC : List LinkPartial := [⟨0, "Data", nB, "Consume"⟩]

/-- Scenario D blueprint: references container `"C"`, absent from `diA`. -/
def bpD : Blueprint := ⟨[⟨"C", []⟩]⟩

/-- An inventory with two entries sharing the container identity `"A"`. -/
def diDup : DockerInfo := ⟨[⟨"A", "10.0.0.1", 9000⟩, ⟨"A", "10.0.0.2", 9001⟩]⟩

/-- An empty blueprint. -/
def bpEmptyDoc : Blueprint := ⟨[]⟩

/-- Inventory for the partial-failure input: containers `"A"`, `"B"`, `"C"`. -/
def diP : DockerInfo :=
  ⟨[⟨"A", "10.0.0.1", 9000⟩, ⟨"B", "10.0.0.2", 9001⟩, ⟨"C", "10.0.0.3", 9002⟩]⟩

/-- Blueprint for the partial-failure input: `"A".Produce → "B".Consume`
resolves to a link, then `"C".Bad` (input `"Data"`, no declared producer)
fails the cardinality check. -/
def bpP : Blueprint :=
  ⟨[⟨"A", [⟨⟨"Produce", "Empty", false, "Data", false⟩, [⟨"B", ⟨"Consume"⟩⟩]⟩]⟩,
    ⟨"B", [⟨⟨"Consume", "Data", false, "Out", false⟩, []⟩]⟩,
    ⟨"C", [⟨⟨"Bad", "Data", false, "Out2", false⟩, []⟩]⟩]⟩

/-- Blueprint with a dangling descriptor: `"A".P` declares a connection to
`"B"`'s operation `"Other"`, which no signature declares; both declared
operations have `"Empty"` input. -/
def bpE : Blueprint :=
  ⟨[⟨"A", [⟨⟨"P", "Empty", false, "Data", false⟩, [⟨"B", ⟨"Other"⟩⟩]⟩]⟩,
    ⟨"B", [⟨⟨"Q", "Empty", false, "X", false⟩, []⟩]⟩]⟩

/-- A registry state holding only container `"A"`, for the key-error input. -/
def core9 : Core := ⟨[("A", nA)], [], []⟩

/-- Blueprint whose `"A".P` signature declares a connection to container
`"Z"`, absent from the registry. -/
def bp9 : Blueprint := ⟨[⟨"A", [⟨⟨"P", "Empty", false, "Data", false⟩, [⟨"Z", ⟨"Q"⟩⟩]⟩]⟩]⟩

/-- The projection of an rpc onto the fields the interlinking pass never
mutates (everything but `incoming`/`outgoing`). -/
def keyOf (r : RPCInfo) : NodeInfo × String × MessageInfo × MessageInfo :=
  (r.node, r.operation, r.input, r.output)

/-- Every pending descriptor's producer index points at an rpc whose output
message name is the descriptor's `message_name` (the extraction pass builds
descriptors from their producer's signature, so this holds of its output). -/
def lpsConsistent (rpcs : List RPCInfo) (lps : List LinkPartial) : Prop :=
  ∀ lp ∈ lps, ∃ p, rpcs[lp.inputIdx]? = some p ∧ p.output.name = lp.message_name

/-- Every stored link resolves to a producer and a consumer rpc, carries its
producer's output message name, and its index is registered in the producer's
`outgoing` and the consumer's `incoming` collections. -/
def linksConsistent (rpcs : List RPCInfo) (links : List LinkInfo) : Prop :=
  ∀ (k : Nat) (l : LinkInfo), links[k]? = some l →
    ∃ p q, rpcs[l.inputIdx]? = some p ∧ rpcs[l.outputIdx]? = some q ∧
      l.message_name = p.output.name ∧ k ∈ p.outgoing ∧ k ∈ q.incoming

/-- Whether the rpc at index `i` expects an incoming link
(its input message name is not the `"Empty"` sentinel). -/
def nonEmptyAt (rpcs : List RPCInfo) (i : Nat) : Bool :=
  match rpcs[i]? with
  | some r => decide (r.input.name ≠ "Empty")
  | none => false

/-! Basic lemmas about the embedding's primitives. -/

theorem dlookup_append (k : String) (ns ms : List (String × NodeInfo)) :
    dlookup k (ns ++ ms) =
      match dlookup k ns with
      | some v => some v
      | none => dlookup k ms := by
  induction ns with
  | nil => simp [dlookup]
  | cons p rest ih =>
    obtain ⟨k₁, v⟩ := p
    by_cases hk : k = k₁ <;> simp [dlookup, hk, ih]

theorem dlookup_append_of_some (k : String) (ns ms : List (String × NodeInfo)) (v : NodeInfo)
    (h : dlookup k ns = some v) : dlookup k (ns ++ ms) = some v := by
  rw [dlookup_append, h]

theorem updateAt_length (i : Nat) (f : RPCInfo → RPCInfo) (l : List RPCInfo) :
    (updateAt i f l).length = l.length := by
  induction l generalizing i with
  | nil => simp [updateAt]
  | cons r rest ih =>
    match i with
    | 0 => simp [updateAt]
    | j + 1 => simp [updateAt, ih]

theorem updateAt_getElem? (i j : Nat) (f : RPCInfo → RPCInfo) (l : List RPCInfo) :
    (updateAt i f l)[j]? = if j = i then (l[j]?).map f else l[j]? := by
  induction l generalizing i j with
  | nil => simp [updateAt]
  | cons r rest ih =>
    match i, j with
    | 0, 0 => simp [updateAt]
    | 0, j + 1 => simp [updateAt]
    | i + 1, 0 => simp [updateAt]
    | i + 1, j + 1 => simpa [updateAt] using ih i j

theorem dlookup_concat_eq_none (k nm : String) (v : NodeInfo) (ns : List (String × NodeInfo)) :
    dlookup k (ns ++ [(nm, v)]) = none ↔ (dlookup k ns = none ∧ k ≠ nm) := by
  rw [dlookup_append]
  cases h : dlookup k ns with
  | none =>
    by_cases hk : k = nm <;> simp [dlookup, hk]
  | some w => simp

/-! Lemmas about `collect_node_infos`. -/

theorem cni_aux_error (dis : List DockerInfoEntry) :
    ∀ ns e, (collect_node_infos_aux ns dis).2 = some e →
      ∃ nm, e = OrchError.duplicateContainer nm := by
  induction dis with
  | nil => intro ns e h; simp [collect_node_infos_aux] at h
  | cons d rest ih =>
    intro ns e h
    simp only [collect_node_infos_aux] at h
    split at h
    · simp at h
      exact ⟨d.container_name, h.symm⟩
    · exact ih _ _ h

theorem cni_aux_ok_iff (dis : List DockerInfoEntry) :
    ∀ ns, (collect_node_infos_aux ns dis).2 = none ↔
      ((dis.map (fun d => d.container_name)).Nodup ∧
       ∀ d ∈ dis, dlookup d.container_name ns = none) := by
  induction dis with
  | nil => intro ns; simp [collect_node_infos_aux]
  | cons d rest ih =>
    intro ns
    simp only [collect_node_infos_aux]
    split
    · rename_i hd
      constructor
      · intro h; simp at h
      · rintro ⟨-, hall⟩
        have h0 := hall d (by simp)
        rw [h0] at hd; simp at hd
    · rename_i hd
      have hnone : dlookup d.container_name ns = none := by
        cases h0 : dlookup d.container_name ns with
        | none => rfl
        | some w => rw [h0] at hd; simp at hd
      rw [ih]
      constructor
      · rintro ⟨hnd, hall⟩
        have hne : ∀ d₁ ∈ rest, d₁.container_name ≠ d.container_name := by
          intro d₁ h₁
          exact ((dlookup_concat_eq_none _ _ _ _).1 (hall d₁ h₁)).2
        refine ⟨?_, ?_⟩
        · simp only [List.map_cons, List.nodup_cons]
          refine ⟨?_, hnd⟩
          simp only [List.mem_map]
          rintro ⟨d₁, h₁, he⟩
          exact hne d₁ h₁ he
        · intro d₁ h₁
          rcases List.mem_cons.1 h₁ with h₂ | h₂
          · rw [h₂]; exact hnone
          · exact ((dlookup_concat_eq_none _ _ _ _).1 (hall d₁ h₂)).1
      · rintro ⟨hnd, hall⟩
        simp only [List.map_cons, List.nodup_cons, List.mem_map] at hnd
        refine ⟨hnd.2, ?_⟩
        intro d₁ h₁
        refine (dlookup_concat_eq_none _ _ _ _).2 ⟨hall d₁ (List.mem_cons_of_mem _ h₁), ?_⟩
        intro he
        exact hnd.1 ⟨d₁, h₁, he⟩

theorem cni_aux_extends (dis : List DockerInfoEntry) :
    ∀ ns, ∃ t, (collect_node_infos_aux ns dis).1 = ns ++ t := by
  induction dis with
  | nil => intro ns; exact ⟨[], by simp [collect_node_infos_aux]⟩
  | cons d rest ih =>
    intro ns
    simp only [collect_node_infos_aux]
    split
    · exact ⟨[], by simp⟩
    · obtain ⟨t, ht⟩ :=
        ih (ns ++ [(d.container_name, ⟨d.container_name, d.ip_address, d.port⟩)])
      exact ⟨(d.container_name, ⟨d.container_name, d.ip_address, d.port⟩) :: t, by
        rw [ht, List.append_assoc]; rfl⟩

theorem cni_aux_maps (dis : List DockerInfoEntry) :
    ∀ ns, (collect_node_infos_aux ns dis).2 = none →
      (collect_node_infos_aux ns dis).1.length = ns.length + dis.length ∧
      ∀ d ∈ dis, dlookup d.container_name (collect_node_infos_aux ns dis).1 =
        some ⟨d.container_name, d.ip_address, d.port⟩ := by
  induction dis with
  | nil => intro ns h; simp [collect_node_infos_aux]
  | cons d rest ih =>
    intro ns h
    simp only [collect_node_infos_aux] at h ⊢
    split at h
    · simp at h
    · rename_i hd
      have hnone : dlookup d.container_name ns = none := by
        cases h0 : dlookup d.container_name ns with
        | none => rfl
        | some w => rw [h0] at hd; simp at hd
      rw [if_neg hd]
      · obtain ⟨hlen, hmap⟩ := ih _ h
        refine ⟨by rw [hlen]; simp; omega, ?_⟩
        intro d₁ h₁
        rcases List.mem_cons.1 h₁ with h₂ | h₂
        · subst h₂
          obtain ⟨t, ht⟩ := cni_aux_extends rest
            (ns ++ [(d₁.container_name, ⟨d₁.container_name, d₁.ip_address, d₁.port⟩)])
          rw [ht]
          apply dlookup_append_of_some
          rw [dlookup_append, hnone]
          simp [dlookup]
        · exact hmap d₁ h₂

theorem cni_nodes_eq (c : Core) (bp : Blueprint) (di : DockerInfo) :
    (Core.collect_node_infos c bp di).1.nodes =
      (collect_node_infos_aux c.nodes di.docker_info_list).1 := by
  unfold Core.collect_node_infos
  split
  · rename_i ns e heq
    rw [heq]
  · rename_i ns heq
    split <;> rw [heq]

theorem cni_error_eq (c : Core) (bp : Blueprint) (di : DockerInfo) (e : OrchError)
    (h : (collect_node_infos_aux c.nodes di.docker_info_list).2 = some e) :
    (Core.collect_node_infos c bp di).2 = some e := by
  unfold Core.collect_node_infos
  rcases h₁ : collect_node_infos_aux c.nodes di.docker_info_list with ⟨ns, oe⟩
  rw [h₁] at h
  simp only at h
  rw [h]

theorem cni_snd_of_aux_ok (c : Core) (bp : Blueprint) (di : DockerInfo)
    (ns : List (String × NodeInfo))
    (haux : collect_node_infos_aux c.nodes di.docker_info_list = (ns, none)) :
    (Core.collect_node_infos c bp di).2 =
      match bp.nodes.find? (fun n => (dlookup n.container_name ns).isNone) with
      | some n => some (OrchError.missingContainer n.container_name)
      | none => none := by
  unfold Core.collect_node_infos
  rw [haux]
  split
  · rename_i ns₁ e₁ heq
    exact absurd heq.symm (by simp)
  · rename_i ns₁ heq
    injection heq with h1 h2
    subst h1
    split <;> rfl

/-- C5: registry construction from a fresh state fails with the
duplicate-identity error whenever two inventory entries share a container
name, and with all names distinct it places exactly one node per inventory
entry in the mapping, keyed by its identity and carrying its host and port. -/
theorem c5_registry_uniqueness (bp : Blueprint) (di : DockerInfo) :
    (¬ (di.docker_info_list.map (fun d => d.container_name)).Nodup →
      ∃ nm, (Core.collect_node_infos Core.initial bp di).2 =
        some (OrchError.duplicateContainer nm)) ∧
    ((di.docker_info_list.map (fun d => d.container_name)).Nodup →
      (Core.collect_node_infos Core.initial bp di).1.nodes.length =
        di.docker_info_list.length ∧
      ∀ d ∈ di.docker_info_list,
        dlookup d.container_name (Core.collect_node_infos Core.initial bp di).1.nodes =
          some ⟨d.container_name, d.ip_address, d.port⟩) := by
  constructor
  · intro hdup
    cases he : (collect_node_infos_aux [] di.docker_info_list).2 with
    | none =>
      rw [cni_aux_ok_iff] at he
      exact absurd he.1 hdup
    | some e =>
      obtain ⟨nm, rfl⟩ := cni_aux_error _ _ _ he
      exact ⟨nm, cni_error_eq _ _ _ _ he⟩
  · intro hnodup
    have hok : (collect_node_infos_aux [] di.docker_info_list).2 = none := by
      rw [cni_aux_ok_iff]
      exact ⟨hnodup, fun d _ => rfl⟩
    obtain ⟨hlen, hmap⟩ := cni_aux_maps _ _ hok
    rw [cni_nodes_eq]
    constructor
    · simpa using hlen
    · exact hmap

/-- C5 witness: on `diDup` (two entries named `"A"`) construction fails with a
duplicate-identity error, and on Scenario A's inventory the mapping holds node
`"A"` at its declared host and port. -/
theorem c5_witness :
    (∃ nm, (Core.collect_node_infos Core.initial bpEmptyDoc diDup).2 =
      some (OrchError.duplicateContainer nm)) ∧
    dlookup "A" (Core.collect_node_infos Core.initial bpA diA).1.nodes = some nA := by
  constructor
  · exact (c5_registry_uniqueness bpEmptyDoc diDup).1 (by decide)
  · have h := ((c5_registry_uniqueness bpA diA).2 (by decide)).2
      ⟨"A", "10.0.0.1", 9000⟩ (by decide)
    exact h

/-- C6: with distinct inventory identities, registry construction succeeds if
and only if every blueprint node's container name is a key of the built
mapping; and every failure is a missing-deployment error naming a blueprint
node whose container name is absent from the mapping.  Inventory entries that
no blueprint node references play no role in the success condition (orphan
deployments are tolerated). -/
theorem c6_registry_completeness (bp : Blueprint) (di : DockerInfo)
    (h : (di.docker_info_list.map (fun d => d.container_name)).Nodup) :
    ((Core.collect_node_infos Core.initial bp di).2 = none ↔
      ∀ n ∈ bp.nodes,
        (dlookup n.container_name
          (Core.collect_node_infos Core.initial bp di).1.nodes).isSome) ∧
    (∀ e, (Core.collect_node_infos Core.initial bp di).2 = some e →
      ∃ n ∈ bp.nodes, e = OrchError.missingContainer n.container_name ∧
        dlookup n.container_name
          (Core.collect_node_infos Core.initial bp di).1.nodes = none) := by
  have hok : (collect_node_infos_aux [] di.docker_info_list).2 = none := by
    rw [cni_aux_ok_iff]
    exact ⟨h, fun d _ => rfl⟩
  rcases haux : collect_node_infos_aux [] di.docker_info_list with ⟨ns, oe⟩
  rw [haux] at hok
  simp only at hok
  subst hok
  have haux₁ : collect_node_infos_aux Core.initial.nodes di.docker_info_list = (ns, none) := haux
  have hsnd := cni_snd_of_aux_ok Core.initial bp di ns haux₁
  have hnodes : (Core.collect_node_infos Core.initial bp di).1.nodes = ns := by
    rw [cni_nodes_eq, haux₁]
  rw [hnodes, hsnd]
  cases hf : bp.nodes.find? (fun n => (dlookup n.container_name ns).isNone) with
  | none =>
    constructor
    · refine ⟨fun _ n hn => ?_, fun _ => rfl⟩
      have h₁ := List.find?_eq_none.1 hf n hn
      cases ho : dlookup n.container_name ns with
      | none => rw [ho] at h₁; simp at h₁
      | some v => simp
    · intro e he
      simp at he
  | some n =>
    constructor
    · constructor
      · intro hcontra
        simp at hcontra
      · intro hall
        exfalso
        have hmem := List.mem_of_find?_eq_some hf
        have hp := List.find?_some hf
        simp only [Option.isNone_iff_eq_none] at hp
        have h₂ := hall n hmem
        rw [hp] at h₂
        simp at h₂
    · intro e he
      simp only [Option.some.injEq] at he
      have hmem := List.mem_of_find?_eq_some hf
      have hp := List.find?_some hf
      simp only [Option.isNone_iff_eq_none] at hp
      exact ⟨n, hmem, he.symm, hp⟩

/-- C6 witness: Scenario D — the blueprint references container `"C"`, absent
from the one-entry inventory, so construction fails with the
missing-deployment error naming `"C"`. -/
theorem c6_witness :
    ∃ n ∈ bpD.nodes, OrchError.missingContainer "C" =
      OrchError.missingContainer n.container_name ∧
      dlookup n.container_name
        (Core.collect_node_infos Core.initial bpD diA).1.nodes = none := by
  exact (c6_registry_completeness bpD diA (by decide)).2
    (OrchError.missingContainer "C") (by decide)

/-! Lemmas about the extraction pass's key lookups. -/

theorem connected_aux_ok_iff (nodes : List (String × NodeInfo)) (idx : Nat) (mname : String)
    (cons : List ConnectedTo) :
    ∀ lps, (connected_aux nodes idx mname lps cons).2 = none ↔
      ∀ con ∈ cons, (dlookup con.container_name nodes).isSome := by
  induction cons with
  | nil => intro lps; simp [connected_aux]
  | cons con rest ih =>
    intro lps
    simp only [connected_aux]
    cases h₀ : dlookup con.container_name nodes with
    | none =>
      simp only [List.forall_mem_cons, h₀]
      constructor
      · intro hc; simp at hc
      · rintro ⟨h₁, -⟩; simp at h₁
    | some v =>
      simp only [List.forall_mem_cons, h₀, ih]
      simp

theorem connected_aux_error (nodes : List (String × NodeInfo)) (idx : Nat) (mname : String)
    (cons : List ConnectedTo) :
    ∀ lps e, (connected_aux nodes idx mname lps cons).2 = some e →
      ∃ nm, e = OrchError.keyError nm ∧ dlookup nm nodes = none := by
  induction cons with
  | nil => intro lps e h; simp [connected_aux] at h
  | cons con rest ih =>
    intro lps e h
    simp only [connected_aux] at h
    cases h₀ : dlookup con.container_name nodes with
    | none =>
      rw [h₀] at h
      simp only at h
      exact ⟨con.container_name, (Option.some.inj h).symm, h₀⟩
    | some v =>
      rw [h₀] at h
      exact ih _ _ h

theorem extract_sigs_ok_iff (nodes : List (String × NodeInfo)) (cname : String)
    (scs : List SigConn) :
    ∀ rpcs lps, (extract_sigs_aux nodes cname rpcs lps scs).2 = none ↔
      ∀ sc ∈ scs, (dlookup cname nodes).isSome ∧
        ∀ con ∈ sc.connected_to, (dlookup con.container_name nodes).isSome := by
  induction scs with
  | nil => intro rpcs lps; simp [extract_sigs_aux]
  | cons sc rest ih =>
    intro rpcs lps
    simp only [extract_sigs_aux]
    cases h₀ : dlookup cname nodes with
    | none =>
      simp only [List.forall_mem_cons, h₀]
      constructor
      · intro hc; simp at hc
      · rintro ⟨⟨h₁, -⟩, -⟩; simp at h₁
    | some ni =>
      cases h₁ : connected_aux nodes rpcs.length sc.operation_signature.output_message_name
          lps sc.connected_to with
      | mk lps₁ oe =>
        cases oe with
        | some e =>
          simp only [List.forall_mem_cons, h₀]
          constructor
          · intro hc; simp at hc
          · rintro ⟨⟨-, hcons⟩, -⟩
            have h₂ := (connected_aux_ok_iff nodes rpcs.length
              sc.operation_signature.output_message_name sc.connected_to lps).2 hcons
            rw [h₁] at h₂
            simp at h₂
        | none =>
          simp only [List.forall_mem_cons, h₀, ih]
          have h₂ : ∀ con ∈ sc.connected_to, (dlookup con.container_name nodes).isSome := by
            have h₃ := (connected_aux_ok_iff nodes rpcs.length
              sc.operation_signature.output_message_name sc.connected_to lps).1
            rw [h₁] at h₃
            exact h₃ rfl
          constructor
          · intro hall
            exact ⟨⟨rfl, h₂⟩, hall⟩
          · rintro ⟨-, hall⟩
            exact hall

theorem extract_sigs_error (nodes : List (String × NodeInfo)) (cname : String)
    (scs : List SigConn) :
    ∀ rpcs lps e, (extract_sigs_aux nodes cname rpcs lps scs).2 = some e →
      ∃ nm, e = OrchError.keyError nm ∧ dlookup nm nodes = none := by
  induction scs with
  | nil => intro rpcs lps e h; simp [extract_sigs_aux] at h
  | cons sc rest ih =>
    intro rpcs lps e h
    simp only [extract_sigs_aux] at h
    cases h₀ : dlookup cname nodes with
    | none =>
      rw [h₀] at h
      simp only at h
      exact ⟨cname, (Option.some.inj h).symm, h₀⟩
    | some ni =>
      rw [h₀] at h
      cases h₁ : connected_aux nodes rpcs.length sc.operation_signature.output_message_name
          lps sc.connected_to with
      | mk lps₁ oe =>
        rw [h₁] at h
        cases oe with
        | some e₁ =>
          simp only at h
          rw [← Option.some.inj h]
          exact connected_aux_error nodes rpcs.length
            sc.operation_signature.output_message_name sc.connected_to lps e₁ (by rw [h₁])
        | none =>
          exact ih _ _ _ h

theorem extract_nodes_ok_iff (nodes : List (String × NodeInfo)) (bns : List BlueprintNode) :
    ∀ rpcs lps, (extract_nodes_aux nodes rpcs lps bns).2 = none ↔
      ∀ bn ∈ bns, ∀ sc ∈ bn.operation_signature_list,
        (dlookup bn.container_name nodes).isSome ∧
        ∀ con ∈ sc.connected_to, (dlookup con.container_name nodes).isSome := by
  induction bns with
  | nil => intro rpcs lps; simp [extract_nodes_aux]
  | cons bn rest ih =>
    intro rpcs lps
    simp only [extract_nodes_aux]
    cases h₀ : extract_sigs_aux nodes bn.container_name rpcs lps
        bn.operation_signature_list with
    | mk st oe =>
      cases oe with
      | some e =>
        simp only [List.forall_mem_cons]
        constructor
        · intro hc; simp at hc
        · rintro ⟨hsc, -⟩
          have h₁ := (extract_sigs_ok_iff nodes bn.container_name
            bn.operation_signature_list rpcs lps).2 hsc
          rw [h₀] at h₁
          simp at h₁
      | none =>
        obtain ⟨rpcs₁, lps₁⟩ := st
        simp only [List.forall_mem_cons, ih]
        have h₂ : ∀ sc ∈ bn.operation_signature_list,
            (dlookup bn.container_name nodes).isSome ∧
            ∀ con ∈ sc.connected_to, (dlookup con.container_name nodes).isSome := by
          have h₃ := (extract_sigs_ok_iff nodes bn.container_name
            bn.operation_signature_list rpcs lps).1
          rw [h₀] at h₃
          exact h₃ rfl
        constructor
        · intro hall
          exact ⟨h₂, hall⟩
        · rintro ⟨-, hall⟩
          exact hall

theorem extract_nodes_error (nodes : List (String × NodeInfo)) (bns : List BlueprintNode) :
    ∀ rpcs lps e, (extract_nodes_aux nodes rpcs lps bns).2 = some e →
      ∃ nm, e = OrchError.keyError nm ∧ dlookup nm nodes = none := by
  induction bns with
  | nil => intro rpcs lps e h; simp [extract_nodes_aux] at h
  | cons bn rest ih =>
    intro rpcs lps e h
    simp only [extract_nodes_aux] at h
    cases h₀ : extract_sigs_aux nodes bn.container_name rpcs lps
        bn.operation_signature_list with
    | mk st oe =>
      rw [h₀] at h
      cases oe with
      | some e₁ =>
        simp only at h
        rw [← Option.some.inj h]
        exact extract_sigs_error nodes bn.container_name bn.operation_signature_list
          rpcs lps e₁ (by rw [h₀])
      | none =>
        obtain ⟨rpcs₁, lps₁⟩ := st
        exact ih _ _ _ h

/-- C9: for any registry state, the extraction pass succeeds exactly when
every per-signature lookup succeeds — the owning node's container name and
every `connected_to` target's container name must be keys of `self.nodes`
(so a target present in the registry is accepted at this point whether or not
it declares any operation); every extraction failure is a key-lookup error
for an absent container name; and on such a failure
`collect_rpc_and_link_infos` returns that key error with `self.links`
untouched — the interlinking (cardinality) pass never runs. -/
theorem c9_extraction_key_errors (c : Core) (bp : Blueprint) :
    ((extract_nodes_aux c.nodes c.rpcs [] bp.nodes).2 = none ↔
      ∀ bn ∈ bp.nodes, ∀ sc ∈ bn.operation_signature_list,
        (dlookup bn.container_name c.nodes).isSome ∧
        ∀ con ∈ sc.connected_to, (dlookup con.container_name c.nodes).isSome) ∧
    (∀ e, (extract_nodes_aux c.nodes c.rpcs [] bp.nodes).2 = some e →
      (∃ nm, e = OrchError.keyError nm ∧ dlookup nm c.nodes = none) ∧
      (Core.collect_rpc_and_link_infos c bp).2 = some e ∧
      (Core.collect_rpc_and_link_infos c bp).1.links = c.links) := by
  refine ⟨extract_nodes_ok_iff c.nodes bp.nodes c.rpcs [], ?_⟩
  intro e he
  refine ⟨extract_nodes_error c.nodes bp.nodes c.rpcs [] e he, ?_⟩
  unfold Core.collect_rpc_and_link_infos
  cases h₀ : extract_nodes_aux c.nodes c.rpcs [] bp.nodes with
  | mk st oe =>
    rw [h₀] at he
    simp only at he
    subst he
    obtain ⟨rpcs₁, lps₁⟩ := st
    exact ⟨rfl, rfl⟩

/-- C9 witness: with registry `{"A"}`, the blueprint `bp9` (whose `"A".P`
signature targets the absent container `"Z"`) makes extraction fail, the
failure is the key error for `"Z"`, and `collect_rpc_and_link_infos`
propagates it with the link list untouched. -/
theorem c9_witness :
    (∃ nm, OrchError.keyError "Z" = OrchError.keyError nm ∧ dlookup nm core9.nodes = none) ∧
    (Core.collect_rpc_and_link_infos core9 bp9).2 = some (OrchError.keyError "Z") ∧
    (Core.collect_rpc_and_link_infos core9 bp9).1.links = core9.links :=
  (c9_extraction_key_errors core9 bp9).2 (OrchError.keyError "Z") (by decide)

/-! Lemmas about the interlinking pass. -/

theorem keyOf_fields {r r₁ : RPCInfo} (h : keyOf r = keyOf r₁) :
    r.node = r₁.node ∧ r.operation = r₁.operation ∧
    r.input = r₁.input ∧ r.output = r₁.output := by
  simpa [keyOf, Prod.ext_iff] using h

theorem matchCount_congr (lps : List LinkPartial) {r r₁ : RPCInfo}
    (h : keyOf r = keyOf r₁) : matchCount lps r = matchCount lps r₁ := by
  obtain ⟨h₁, h₂, -, -⟩ := keyOf_fields h
  simp [matchCount, incomingLinks, h₁, h₂]

theorem expectedCount_congr {r r₁ : RPCInfo} (h : keyOf r = keyOf r₁) :
    expectedCount r = expectedCount r₁ := by
  obtain ⟨-, -, h₃, -⟩ := keyOf_fields h
  simp [expectedCount, h₃]

theorem updateAt_keyOf (i : Nat) (f : RPCInfo → RPCInfo) (l : List RPCInfo)
    (hf : ∀ r, keyOf (f r) = keyOf r) (j : Nat) :
    ((updateAt i f l)[j]?).map keyOf = (l[j]?).map keyOf := by
  rw [updateAt_getElem?]
  by_cases hj : j = i
  · rw [if_pos hj]
    cases l[j]? <;> simp [hf]
  · rw [if_neg hj]

theorem resolve_aux_keyOf (lps : List LinkPartial) (is : List Nat) :
    ∀ (rpcs : List RPCInfo) (links : List LinkInfo) (j : Nat),
      (((resolve_aux lps rpcs links is).1.1)[j]?).map keyOf = (rpcs[j]?).map keyOf := by
  induction is with
  | nil => intro rpcs links j; simp [resolve_aux]
  | cons i rest ih =>
    intro rpcs links j
    simp only [resolve_aux]
    split
    · exact ih rpcs links j
    · split
      · rfl
      · split
        · exact ih rpcs links j
        · rename_i lp tl h₁
          rw [ih]
          rw [updateAt_keyOf i (addInc links.length) _ (fun s => rfl) j,
              updateAt_keyOf lp.inputIdx (addOut links.length) rpcs (fun s => rfl) j]

theorem resolve_aux_length (lps : List LinkPartial) (is : List Nat) :
    ∀ (rpcs : List RPCInfo) (links : List LinkInfo),
      ((resolve_aux lps rpcs links is).1.1).length = rpcs.length := by
  induction is with
  | nil => intro rpcs links; simp [resolve_aux]
  | cons i rest ih =>
    intro rpcs links
    simp only [resolve_aux]
    split
    · exact ih rpcs links
    · split
      · rfl
      · split
        · exact ih rpcs links
        · rw [ih, updateAt_length, updateAt_length]

theorem cardOk_transfer {a b : List RPCInfo} (lps : List LinkPartial) (is : List Nat)
    (h : ∀ j : Nat, (a[j]?).map keyOf = (b[j]?).map keyOf)
    (hall : ∀ i ∈ is, ∀ r, a[i]? = some r → matchCount lps r = expectedCount r) :
    ∀ i ∈ is, ∀ r, b[i]? = some r → matchCount lps r = expectedCount r := by
  intro i hi r hr
  have hj := h i
  rw [hr] at hj
  cases ha : a[i]? with
  | none => rw [ha] at hj; simp at hj
  | some r₁ =>
    rw [ha] at hj
    simp only [Option.map_some'] at hj
    have hk : keyOf r₁ = keyOf r := Option.some.inj hj
    rw [← matchCount_congr lps hk, ← expectedCount_congr hk]
    exact hall i hi r₁ ha

theorem resolve_aux_ok_iff (lps : List LinkPartial) (is : List Nat) :
    ∀ rpcs links, (resolve_aux lps rpcs links is).2 = none ↔
      ∀ i ∈ is, ∀ r, rpcs[i]? = some r → matchCount lps r = expectedCount r := by
  induction is with
  | nil => intro rpcs links; simp [resolve_aux]
  | cons i rest ih =>
    intro rpcs links
    simp only [resolve_aux]
    split
    · rename_i h₀
      rw [ih]
      simp only [List.forall_mem_cons]
      constructor
      · intro hrest
        refine ⟨fun r hr => ?_, hrest⟩
        rw [h₀] at hr
        cases hr
      · rintro ⟨-, hrest⟩
        exact hrest
    · rename_i r h₀
      split
      · rename_i hne
        simp only [List.forall_mem_cons]
        constructor
        · intro hc
          simp at hc
        · rintro ⟨hhead, -⟩
          exact absurd (hhead r h₀) hne
      · rename_i hne
        have heq : matchCount lps r = expectedCount r := not_not.1 hne
        split
        · rename_i h₁
          rw [ih]
          simp only [List.forall_mem_cons]
          constructor
          · intro hrest
            refine ⟨fun r₁ hr₁ => ?_, hrest⟩
            rw [h₀] at hr₁
            rw [← Option.some.inj hr₁]
            exact heq
          · rintro ⟨-, hrest⟩
            exact hrest
        · rename_i lp tl h₁
          rw [ih]
          simp only [List.forall_mem_cons]
          have hkeys : ∀ j : Nat,
              (((updateAt i (addInc links.length)
                (updateAt lp.inputIdx (addOut links.length) rpcs))[j]?).map keyOf)
                = ((rpcs[j]?).map keyOf) := by
            intro j
            rw [updateAt_keyOf i (addInc links.length) _ (fun s => rfl) j,
                updateAt_keyOf lp.inputIdx (addOut links.length) rpcs (fun s => rfl) j]
          constructor
          · intro hrest
            refine ⟨fun r₁ hr₁ => ?_, cardOk_transfer lps rest hkeys hrest⟩
            rw [h₀] at hr₁
            rw [← Option.some.inj hr₁]
            exact heq
          · rintro ⟨-, hrest⟩
            exact cardOk_transfer lps rest (fun j => (hkeys j).symm) hrest

theorem resolve_aux_error (lps : List LinkPartial) (is : List Nat) :
    ∀ rpcs links e, (resolve_aux lps rpcs links is).2 = some e →
      ∃ i n m, e = OrchError.cardinalityError i n m ∧ n ≠ m := by
  induction is with
  | nil => intro rpcs links e h; simp [resolve_aux] at h
  | cons i rest ih =>
    intro rpcs links e h
    simp only [resolve_aux] at h
    split at h
    · exact ih _ _ _ h
    · rename_i r h₀
      split at h
      · rename_i hne
        simp only at h
        exact ⟨i, matchCount lps r, expectedCount r, (Option.some.inj h).symm, hne⟩
      · split at h
        · exact ih _ _ _ h
        · exact ih _ _ _ h

/-- C1: the interlinking pass succeeds exactly when every rpc's matching
incoming-descriptor count equals its expected count — 0 when its input
message name is the `"Empty"` sentinel, 1 otherwise — and every failure it
raises is a cardinality error whose observed count differs from its expected
count.  (In particular a connection declared into an `"Empty"`-input
operation fails with observed 1, expected 0: see the witness.) -/
theorem c1_link_cardinality (lps : List LinkPartial) (rpcs : List RPCInfo)
    (links : List LinkInfo) :
    ((resolve_links lps rpcs links).2 = none ↔
      ∀ r ∈ rpcs, matchCount lps r = expectedCount r) ∧
    (∀ e, (resolve_links lps rpcs links).2 = some e →
      ∃ i n m, e = OrchError.cardinalityError i n m ∧ n ≠ m) := by
  constructor
  · rw [resolve_links, resolve_aux_ok_iff]
    constructor
    · intro hall r hr
      obtain ⟨j, hj, hget⟩ := List.mem_iff_getElem.1 hr
      exact hall j (List.mem_range.2 hj) r (by rw [List.getElem?_eq_getElem hj, hget])
    · intro hall i hi r hget
      obtain ⟨hlt, hval⟩ := List.getElem?_eq_some.1 hget
      exact hall r (hval ▸ List.getElem_mem hlt)
  · intro e he
    exact resolve_aux_error lps (List.range rpcs.length) rpcs links e he

/-- C1 witness: on Scenario C (a connection into `"B".Consume` whose input is
`"Empty"`) the pass fails with a cardinality error of observed 1, expected 0,
and the success-iff instance holds at that input. -/
theorem c1_witness :
    ((resolve_links lpsC rpcsC []).2 = none ↔
      ∀ r ∈ rpcsC, matchCount lpsC r = expectedCount r) ∧
    ∃ i n m, OrchError.cardinalityError 1 1 0 = OrchError.cardinalityError i n m ∧ n ≠ m :=
  ⟨(c1_link_cardinality lpsC rpcsC []).1,
   (c1_link_cardinality lpsC rpcsC []).2 (OrchError.cardinalityError 1 1 0) (by decide)⟩

/-! Lemmas towards link consistency (C2). -/

theorem connected_aux_mem (nodes : List (String × NodeInfo)) (idx : Nat) (mname : String)
    (cons : List ConnectedTo) :
    ∀ lps, ∀ lp ∈ (connected_aux nodes idx mname lps cons).1,
      lp ∈ lps ∨ (lp.inputIdx = idx ∧ lp.message_name = mname) := by
  induction cons with
  | nil =>
    intro lps lp h
    exact Or.inl (by simpa [connected_aux] using h)
  | cons con rest ih =>
    intro lps lp h
    simp only [connected_aux] at h
    split at h
    · exact Or.inl h
    · rcases ih _ lp h with h₁ | h₁
      · rcases List.mem_append.1 h₁ with h₂ | h₂
        · exact Or.inl h₂
        · simp only [List.mem_singleton] at h₂
          subst h₂
          exact Or.inr ⟨rfl, rfl⟩
      · exact Or.inr h₁

theorem extract_sigs_spec (nodes : List (String × NodeInfo)) (cname : String)
    (scs : List SigConn) :
    ∀ rpcs lps rpcs₁ lps₁,
      extract_sigs_aux nodes cname rpcs lps scs = ((rpcs₁, lps₁), none) →
      lpsConsistent rpcs lps →
      (∃ t, rpcs₁ = rpcs ++ t ∧ ∀ r ∈ t, r.incoming = [] ∧ r.outgoing = []) ∧
      lpsConsistent rpcs₁ lps₁ := by
  induction scs with
  | nil =>
    intro rpcs lps rpcs₁ lps₁ h hc
    simp only [extract_sigs_aux, Prod.mk.injEq] at h
    obtain ⟨⟨ha, hb⟩, -⟩ := h
    subst ha; subst hb
    exact ⟨⟨[], by simp, by intro r hr; cases hr⟩, hc⟩
  | cons sc rest ih =>
    intro rpcs lps rpcs₁ lps₁ h hc
    simp only [extract_sigs_aux] at h
    split at h
    · simp at h
    · rename_i ni hni
      split at h
      · simp at h
      · rename_i lps₂ hconn
        have hc₂ : lpsConsistent
            (rpcs ++ [⟨ni, sc.operation_signature.operation_name,
              ⟨sc.operation_signature.input_message_name,
               sc.operation_signature.input_message_stream⟩,
              ⟨sc.operation_signature.output_message_name,
               sc.operation_signature.output_message_stream⟩, [], []⟩]) lps₂ := by
          intro lp hlp
          rcases connected_aux_mem nodes rpcs.length
              sc.operation_signature.output_message_name sc.connected_to lps lp
              (by rw [hconn]; exact hlp) with h₁ | h₁
          · obtain ⟨p, hp, hname⟩ := hc lp h₁
            have hlt : lp.inputIdx < rpcs.length := (List.getElem?_eq_some.1 hp).1
            exact ⟨p, by rw [List.getElem?_append_left hlt]; exact hp, hname⟩
          · obtain ⟨hidx, hmn⟩ := h₁
            refine ⟨⟨ni, sc.operation_signature.operation_name,
              ⟨sc.operation_signature.input_message_name,
               sc.operation_signature.input_message_stream⟩,
              ⟨sc.operation_signature.output_message_name,
               sc.operation_signature.output_message_stream⟩, [], []⟩, ?_, ?_⟩
            · rw [hidx]
              exact List.getElem?_concat_length _ _
            · rw [hmn]
        obtain ⟨⟨t, ht, hemp⟩, hcons⟩ := ih _ _ _ _ h hc₂
        refine ⟨⟨⟨ni, sc.operation_signature.operation_name,
          ⟨sc.operation_signature.input_message_name,
           sc.operation_signature.input_message_stream⟩,
          ⟨sc.operation_signature.output_message_name,
           sc.operation_signature.output_message_stream⟩, [], []⟩ :: t, ?_, ?_⟩, hcons⟩
        · rw [ht, List.append_assoc]
          rfl
        · intro r hr
          rcases List.mem_cons.1 hr with h₁ | h₁
          · subst h₁
            exact ⟨rfl, rfl⟩
          · exact hemp r h₁

theorem extract_nodes_spec (nodes : List (String × NodeInfo)) (bns : List BlueprintNode) :
    ∀ rpcs lps rpcs₁ lps₁,
      extract_nodes_aux nodes rpcs lps bns = ((rpcs₁, lps₁), none) →
      lpsConsistent rpcs lps →
      (∃ t, rpcs₁ = rpcs ++ t ∧ ∀ r ∈ t, r.incoming = [] ∧ r.outgoing = []) ∧
      lpsConsistent rpcs₁ lps₁ := by
  induction bns with
  | nil =>
    intro rpcs lps rpcs₁ lps₁ h hc
    simp only [extract_nodes_aux, Prod.mk.injEq] at h
    obtain ⟨⟨ha, hb⟩, -⟩ := h
    subst ha; subst hb
    exact ⟨⟨[], by simp, by intro r hr; cases hr⟩, hc⟩
  | cons bn rest ih =>
    intro rpcs lps rpcs₁ lps₁ h hc
    simp only [extract_nodes_aux] at h
    split at h
    · simp at h
    · rename_i rpcs₂ lps₂ hsig
      obtain ⟨⟨t₁, ht₁, hemp₁⟩, hc₁⟩ := extract_sigs_spec nodes bn.container_name
        bn.operation_signature_list rpcs lps rpcs₂ lps₂ hsig hc
      obtain ⟨⟨t₂, ht₂, hemp₂⟩, hc₂⟩ := ih _ _ _ _ h hc₁
      refine ⟨⟨t₁ ++ t₂, ?_, ?_⟩, hc₂⟩
      · rw [ht₂, ht₁, List.append_assoc]
      · intro r hr
        rcases List.mem_append.1 hr with h₁ | h₁
        exacts [hemp₁ r h₁, hemp₂ r h₁]

theorem lpsConsistent_updateAt (rpcs : List RPCInfo) (lps : List LinkPartial)
    (a : Nat) (f : RPCInfo → RPCInfo) (hf : ∀ r, (f r).output = r.output)
    (h : lpsConsistent rpcs lps) : lpsConsistent (updateAt a f rpcs) lps := by
  intro lp hlp
  obtain ⟨p, hp, hname⟩ := h lp hlp
  by_cases hpi : lp.inputIdx = a
  · exact ⟨f p, by rw [updateAt_getElem?, if_pos hpi, hp]; rfl, by rw [hf p]; exact hname⟩
  · exact ⟨p, by rw [updateAt_getElem?, if_neg hpi]; exact hp, hname⟩

theorem linksConsistent_updateAt (rpcs : List RPCInfo) (links : List LinkInfo)
    (a : Nat) (f : RPCInfo → RPCInfo)
    (hf : ∀ r, (f r).output = r.output ∧
      (∀ x, x ∈ r.outgoing → x ∈ (f r).outgoing) ∧
      (∀ x, x ∈ r.incoming → x ∈ (f r).incoming))
    (h : linksConsistent rpcs links) : linksConsistent (updateAt a f rpcs) links := by
  intro k l hk
  obtain ⟨p, q, hp, hq, hm, hko, hki⟩ := h k l hk
  have hgp : (updateAt a f rpcs)[l.inputIdx]? =
      some (if l.inputIdx = a then f p else p) := by
    rw [updateAt_getElem?]
    by_cases hpi : l.inputIdx = a
    · rw [if_pos hpi, if_pos hpi, hp]
      rfl
    · rw [if_neg hpi, if_neg hpi]
      exact hp
  have hgq : (updateAt a f rpcs)[l.outputIdx]? =
      some (if l.outputIdx = a then f q else q) := by
    rw [updateAt_getElem?]
    by_cases hqi : l.outputIdx = a
    · rw [if_pos hqi, if_pos hqi, hq]
      rfl
    · rw [if_neg hqi, if_neg hqi]
      exact hq
  refine ⟨_, _, hgp, hgq, ?_, ?_, ?_⟩
  · by_cases hpi : l.inputIdx = a
    · rw [if_pos hpi, (hf p).1]
      exact hm
    · rw [if_neg hpi]
      exact hm
  · by_cases hpi : l.inputIdx = a
    · rw [if_pos hpi]
      exact (hf p).2.1 k hko
    · rw [if_neg hpi]
      exact hko
  · by_cases hqi : l.outputIdx = a
    · rw [if_pos hqi]
      exact (hf q).2.2 k hki
    · rw [if_neg hqi]
      exact hki

theorem linksConsistent_concat (rpcs : List RPCInfo) (links : List LinkInfo)
    (link : LinkInfo) (h : linksConsistent rpcs links)
    (hnew : ∃ p q, rpcs[link.inputIdx]? = some p ∧ rpcs[link.outputIdx]? = some q ∧
      link.message_name = p.output.name ∧
      links.length ∈ p.outgoing ∧ links.length ∈ q.incoming) :
    linksConsistent rpcs (links ++ [link]) := by
  intro k l hk
  by_cases hlt : k < links.length
  · rw [List.getElem?_append_left hlt] at hk
    exact h k l hk
  · rw [List.getElem?_append, if_neg hlt] at hk
    cases hd : k - links.length with
    | zero =>
      have hk₀ : k = links.length := by omega
      rw [hd] at hk
      simp only [List.getElem?_cons_zero] at hk
      obtain rfl : link = l := Option.some.inj hk
      rw [hk₀]
      exact hnew
    | succ d =>
      rw [hd] at hk
      simp at hk

theorem resolve_aux_linksConsistent (lps : List LinkPartial) (is : List Nat) :
    ∀ rpcs links,
      lpsConsistent rpcs lps →
      linksConsistent rpcs links →
      linksConsistent (resolve_aux lps rpcs links is).1.1
        (resolve_aux lps rpcs links is).1.2 := by
  induction is with
  | nil =>
    intro rpcs links hlc hlk
    simpa [resolve_aux] using hlk
  | cons i rest ih =>
    intro rpcs links hlc hlk
    simp only [resolve_aux]
    split
    · exact ih rpcs links hlc hlk
    · rename_i r h₀
      split
      · exact hlk
      · rename_i hne
        split
        · exact ih rpcs links hlc hlk
        · rename_i lp tl h₁
          have hlpmem : lp ∈ lps := by
            have hm : lp ∈ incomingLinks lps r := by
              rw [h₁]
              exact List.mem_cons_self _ _
            exact List.mem_of_mem_filter hm
          obtain ⟨p, hp, hpname⟩ := hlc lp hlpmem
          apply ih
          · apply lpsConsistent_updateAt _ _ i (addInc links.length) (fun s => rfl)
            apply lpsConsistent_updateAt _ _ lp.inputIdx (addOut links.length) (fun s => rfl)
            exact hlc
          · apply linksConsistent_concat
            · apply linksConsistent_updateAt _ _ i (addInc links.length)
                (fun s => ⟨rfl, fun x hx => hx, fun x hx => List.mem_append_left _ hx⟩)
              apply linksConsistent_updateAt _ _ lp.inputIdx (addOut links.length)
                (fun s => ⟨rfl, fun x hx => List.mem_append_left _ hx, fun x hx => hx⟩)
              exact hlk
            · by_cases hcase : lp.inputIdx = i
              · have hpr : p = r := by
                  rw [hcase] at hp
                  rw [hp] at h₀
                  exact Option.some.inj h₀
                subst hpr
                refine ⟨addInc links.length (addOut links.length p),
                        addInc links.length (addOut links.length p), ?_, ?_, ?_, ?_, ?_⟩
                · rw [updateAt_getElem?, if_pos hcase, updateAt_getElem?, if_pos rfl, hp]
                  rfl
                · rw [updateAt_getElem?, if_pos rfl, updateAt_getElem?,
                      if_pos hcase.symm, h₀]
                  rfl
                · exact hpname.symm
                · simp [addInc, addOut]
                · simp [addInc, addOut]
              · refine ⟨addOut links.length p, addInc links.length r, ?_, ?_, ?_, ?_, ?_⟩
                · rw [updateAt_getElem?, if_neg hcase, updateAt_getElem?, if_pos rfl, hp]
                  rfl
                · rw [updateAt_getElem?, if_pos rfl, updateAt_getElem?,
                      if_neg (fun hh => hcase hh.symm), h₀]
                  rfl
                · exact hpname.symm
                · simp [addOut]
                · simp [addInc]

theorem cni_rpcs_links (c : Core) (bp : Blueprint) (di : DockerInfo) :
    (Core.collect_node_infos c bp di).1.rpcs = c.rpcs ∧
    (Core.collect_node_infos c bp di).1.links = c.links := by
  unfold Core.collect_node_infos
  split
  · exact ⟨rfl, rfl⟩
  · split <;> exact ⟨rfl, rfl⟩

/-- Destructuring a successful fresh-state run: it determines a node mapping,
an extraction result over empty initial collections, and a resolve result
that yields the final rpc and link collections. -/
theorem run_ok_destruct (bp : Blueprint) (di : DockerInfo) (c₁ : Core)
    (h : run_orchestrator Core.initial bp di = (c₁, none)) :
    ∃ nodes rpcs₁ lps,
      extract_nodes_aux nodes [] [] bp.nodes = ((rpcs₁, lps), none) ∧
      resolve_links lps rpcs₁ [] = ((c₁.rpcs, c₁.links), none) := by
  unfold run_orchestrator at h
  split at h
  · exact absurd h (by simp)
  · rename_i c₂ hni
    have hr : c₂.rpcs = [] := by
      have h₂ := (cni_rpcs_links Core.initial bp di).1
      rw [hni] at h₂
      exact h₂
    have hl : c₂.links = [] := by
      have h₂ := (cni_rpcs_links Core.initial bp di).2
      rw [hni] at h₂
      exact h₂
    unfold Core.collect_rpc_and_link_infos at h
    split at h
    · exact absurd h (by simp)
    · rename_i rpcs₁ lps hext
      split at h
      rename_i rpcs₂ links₂ oe hres
      injection h with hc hoe
      subst hoe
      subst hc
      rw [hr] at hext
      rw [hl] at hres
      exact ⟨c₂.nodes, rpcs₁, lps, hext, hres⟩

/-- C2: after a successful resolution from a fresh process state, every
stored link's producer and consumer indices resolve to rpcs, its
`message_name` equals the producer's output message name, and the link's
index appears in the producer's `outgoing` and the consumer's `incoming`
collections. -/
theorem c2_link_consistency (bp : Blueprint) (di : DockerInfo) (c₁ : Core)
    (h : run_orchestrator Core.initial bp di = (c₁, none)) :
    ∀ (k : Nat) (l : LinkInfo), c₁.links[k]? = some l →
      ∃ p q, c₁.rpcs[l.inputIdx]? = some p ∧ c₁.rpcs[l.outputIdx]? = some q ∧
        l.message_name = p.output.name ∧ k ∈ p.outgoing ∧ k ∈ q.incoming := by
  obtain ⟨nodes, rpcs₁, lps, hext, hres⟩ := run_ok_destruct bp di c₁ h
  have hlps : lpsConsistent rpcs₁ lps :=
    (extract_nodes_spec nodes bp.nodes [] [] rpcs₁ lps hext
      (by intro lp hlp; cases hlp)).2
  have hlinks₀ : linksConsistent rpcs₁ [] := by
    intro k l hk
    simp at hk
  have hmain := resolve_aux_linksConsistent lps (List.range rpcs₁.length)
    rpcs₁ [] hlps hlinks₀
  rw [show resolve_aux lps rpcs₁ [] (List.range rpcs₁.length) =
      resolve_links lps rpcs₁ [] from rfl, hres] at hmain
  exact hmain

/-- C2 witness: on Scenario B the single resolved link `⟨0, 1, "Data"⟩` has
its producer `"A".Produce` at index 0 (whose output message is `"Data"` and
whose `outgoing` holds the link), and its consumer `"B".Consume` at index 1
(whose `incoming` holds the link). -/
theorem c2_witness :
    ∃ p q,
      (run_orchestrator Core.initial bpB diB).1.rpcs[(⟨0, 1, "Data"⟩ : LinkInfo).inputIdx]? =
        some p ∧
      (run_orchestrator Core.initial bpB diB).1.rpcs[(⟨0, 1, "Data"⟩ : LinkInfo).outputIdx]? =
        some q ∧
      (⟨0, 1, "Data"⟩ : LinkInfo).message_name = p.output.name ∧
      0 ∈ p.outgoing ∧ 0 ∈ q.incoming :=
  c2_link_consistency bpB diB (run_orchestrator Core.initial bpB diB).1 (by decide)
    0 ⟨0, 1, "Data"⟩ (by decide)

/-! Lemmas towards the link-count and incoming-list characterization (C10). -/

theorem resolve_aux_cons_none (lps : List LinkPartial) (rpcs : List RPCInfo)
    (links : List LinkInfo) (i : Nat) (rest : List Nat) (h : rpcs[i]? = none) :
    resolve_aux lps rpcs links (i :: rest) = resolve_aux lps rpcs links rest := by
  simp only [resolve_aux, h]

theorem resolve_aux_cons_err (lps : List LinkPartial) (rpcs : List RPCInfo)
    (links : List LinkInfo) (i : Nat) (rest : List Nat) (r : RPCInfo)
    (h : rpcs[i]? = some r) (hne : matchCount lps r ≠ expectedCount r) :
    resolve_aux lps rpcs links (i :: rest) =
      ((rpcs, links),
       some (OrchError.cardinalityError i (matchCount lps r) (expectedCount r))) := by
  simp only [resolve_aux, h]
  rw [if_pos hne]

theorem resolve_aux_cons_empty (lps : List LinkPartial) (rpcs : List RPCInfo)
    (links : List LinkInfo) (i : Nat) (rest : List Nat) (r : RPCInfo)
    (h : rpcs[i]? = some r) (hq : matchCount lps r = expectedCount r)
    (hmt : incomingLinks lps r = []) :
    resolve_aux lps rpcs links (i :: rest) = resolve_aux lps rpcs links rest := by
  simp only [resolve_aux, h]
  rw [if_neg (not_not_intro hq)]
  simp only [hmt]

theorem resolve_aux_cons_link (lps : List LinkPartial) (rpcs : List RPCInfo)
    (links : List LinkInfo) (i : Nat) (rest : List Nat) (r : RPCInfo)
    (lp : LinkPartial) (tl : List LinkPartial)
    (h : rpcs[i]? = some r) (hq : matchCount lps r = expectedCount r)
    (hc : incomingLinks lps r = lp :: tl) :
    resolve_aux lps rpcs links (i :: rest) =
      resolve_aux lps
        (updateAt i (addInc links.length) (updateAt lp.inputIdx (addOut links.length) rpcs))
        (links ++ [⟨lp.inputIdx, i, lp.message_name⟩]) rest := by
  simp only [resolve_aux, h]
  rw [if_neg (not_not_intro hq)]
  simp only [hc]

theorem nonEmptyAt_congr {a b : List RPCInfo} (j : Nat)
    (h : (a[j]?).map keyOf = (b[j]?).map keyOf) : nonEmptyAt a j = nonEmptyAt b j := by
  unfold nonEmptyAt
  cases ha : a[j]? with
  | none =>
    cases hb : b[j]? with
    | none => rfl
    | some rb => rw [ha, hb] at h; simp at h
  | some ra =>
    cases hb : b[j]? with
    | none => rw [ha, hb] at h; simp at h
    | some rb =>
      rw [ha, hb] at h
      simp only [Option.map_some'] at h
      obtain ⟨-, -, h₃, -⟩ := keyOf_fields (Option.some.inj h)
      show decide (ra.input.name ≠ "Empty") = decide (rb.input.name ≠ "Empty")
      rw [h₃]

theorem countP_range_nonEmpty (l : List RPCInfo) :
    (List.range l.length).countP (fun j => nonEmptyAt l j) =
      (l.filter (fun r => decide (r.input.name ≠ "Empty"))).length := by
  induction l with
  | nil => rfl
  | cons r l₂ ih =>
    rw [List.length_cons, List.range_succ_eq_map, List.countP_cons, List.countP_map]
    have h₂ : (List.range l₂.length).countP ((fun j => nonEmptyAt (r :: l₂) j) ∘ Nat.succ) =
        (List.range l₂.length).countP (fun j => nonEmptyAt l₂ j) :=
      List.countP_congr (fun j _ => by
        simp only [Function.comp_apply, nonEmptyAt, List.getElem?_cons_succ])
    rw [h₂, ih]
    by_cases hr : r.input.name = "Empty" <;>
      simp [List.filter_cons, nonEmptyAt, hr, Nat.add_comm]

theorem resolve_aux_incoming (lps : List LinkPartial) (is : List Nat) :
    ∀ (rpcs : List RPCInfo) (links : List LinkInfo),
      is.Nodup →
      (resolve_aux lps rpcs links is).2 = none →
      (∃ t, (resolve_aux lps rpcs links is).1.2 = links ++ t) ∧
      ((resolve_aux lps rpcs links is).1.2).length =
        links.length + is.countP (fun j => nonEmptyAt rpcs j) ∧
      (∀ (i : Nat) (r : RPCInfo), rpcs[i]? = some r → i ∉ is →
        ∃ r₁, ((resolve_aux lps rpcs links is).1.1)[i]? = some r₁ ∧
          r₁.incoming = r.incoming) ∧
      (∀ (i : Nat) (r : RPCInfo), rpcs[i]? = some r → i ∈ is →
        ∃ r₁, ((resolve_aux lps rpcs links is).1.1)[i]? = some r₁ ∧
          (if r.input.name = "Empty" then r₁.incoming = r.incoming
           else ∃ (k : Nat) (l : LinkInfo), r₁.incoming = r.incoming ++ [k] ∧
             ((resolve_aux lps rpcs links is).1.2)[k]? = some l ∧ l.outputIdx = i)) := by
  induction is with
  | nil =>
    intro rpcs links hnd hok
    refine ⟨⟨[], by simp [resolve_aux]⟩, by simp [resolve_aux], ?_, ?_⟩
    · intro i r hr hni
      exact ⟨r, by simpa [resolve_aux] using hr, rfl⟩
    · intro i r hr hmem
      exact absurd hmem (List.not_mem_nil i)
  | cons i rest ih =>
    intro rpcs links hnd hok
    obtain ⟨hni, hrest⟩ := List.nodup_cons.1 hnd
    cases h₀ : rpcs[i]? with
    | none =>
      rw [resolve_aux_cons_none lps rpcs links i rest h₀] at hok ⊢
      obtain ⟨hT, hlen, hout, hin⟩ := ih rpcs links hrest hok
      refine ⟨hT, ?_, ?_, ?_⟩
      · rw [hlen, List.countP_cons]
        simp [nonEmptyAt, h₀]
      · intro i₁ r hr hmem
        exact hout i₁ r hr (fun hm => hmem (List.mem_cons_of_mem _ hm))
      · intro i₁ r hr hmem
        rcases List.mem_cons.1 hmem with h₁ | h₁
        · subst h₁
          rw [h₀] at hr
          cases hr
        · exact hin i₁ r hr h₁
    | some r =>
      by_cases hq : matchCount lps r = expectedCount r
      · cases h₁ : incomingLinks lps r with
        | nil =>
          have h00 : matchCount lps r = 0 := by rw [matchCount, h₁]; rfl
          have hemp : r.input.name = "Empty" := by
            by_contra hcon
            rw [expectedCount, if_neg hcon, h00] at hq
            cases hq
          rw [resolve_aux_cons_empty lps rpcs links i rest r h₀ hq h₁] at hok ⊢
          obtain ⟨hT, hlen, hout, hin⟩ := ih rpcs links hrest hok
          refine ⟨hT, ?_, ?_, ?_⟩
          · rw [hlen, List.countP_cons]
            simp [nonEmptyAt, h₀, hemp]
          · intro i₁ r₁ hr hmem
            exact hout i₁ r₁ hr (fun hm => hmem (List.mem_cons_of_mem _ hm))
          · intro i₁ r₁ hr hmem
            rcases List.mem_cons.1 hmem with h₂ | h₂
            · subst h₂
              rw [h₀] at hr
              obtain rfl : r = r₁ := Option.some.inj hr
              obtain ⟨rf, hrf, hrfi⟩ := hout i₁ r h₀ hni
              exact ⟨rf, hrf, by rw [if_pos hemp]; exact hrfi⟩
            · exact hin i₁ r₁ hr h₂
        | cons lp tl =>
          have hnemp : r.input.name ≠ "Empty" := by
            intro hcon
            rw [expectedCount, if_pos hcon, matchCount, h₁] at hq
            cases hq
          rw [resolve_aux_cons_link lps rpcs links i rest r lp tl h₀ hq h₁] at hok ⊢
          obtain ⟨⟨t, hT⟩, hlen, hout, hin⟩ := ih _ _ hrest hok
          have hkeys : ∀ j : Nat,
              (((updateAt i (addInc links.length)
                (updateAt lp.inputIdx (addOut links.length) rpcs))[j]?).map keyOf)
                = ((rpcs[j]?).map keyOf) := by
            intro j
            rw [updateAt_keyOf i (addInc links.length) _ (fun s => rfl) j,
                updateAt_keyOf lp.inputIdx (addOut links.length) rpcs (fun s => rfl) j]
          refine ⟨⟨⟨lp.inputIdx, i, lp.message_name⟩ :: t, by
            rw [hT, List.append_assoc]; rfl⟩, ?_, ?_, ?_⟩
          · rw [hlen, List.countP_cons]
            have hcnt : rest.countP (fun j => nonEmptyAt
                (updateAt i (addInc links.length)
                  (updateAt lp.inputIdx (addOut links.length) rpcs)) j) =
                rest.countP (fun j => nonEmptyAt rpcs j) :=
              List.countP_congr (fun j _ => by rw [nonEmptyAt_congr j (hkeys j)])
            rw [hcnt]
            have hne₁ : nonEmptyAt rpcs i = true := by
              simp [nonEmptyAt, h₀, hnemp]
            rw [hne₁]
            simp only [List.length_append, List.length_cons, List.length_nil, if_true]
            omega
          · intro i₁ r₁ hr hmem
            have hne₂ : ¬ i₁ = i := fun hh => hmem (hh ▸ List.mem_cons_self i rest)
            have hmid : ∃ r₂,
                ((updateAt i (addInc links.length)
                  (updateAt lp.inputIdx (addOut links.length) rpcs))[i₁]?) = some r₂ ∧
                r₂.incoming = r₁.incoming ∧ r₂.input = r₁.input := by
              rw [updateAt_getElem?, if_neg hne₂, updateAt_getElem?]
              by_cases hio : i₁ = lp.inputIdx
              · rw [if_pos hio, hr]
                exact ⟨addOut links.length r₁, rfl, rfl, rfl⟩
              · rw [if_neg hio, hr]
                exact ⟨r₁, rfl, rfl, rfl⟩
            obtain ⟨r₂, hr₂, hinc₂, -⟩ := hmid
            obtain ⟨rf, hrf, hrfi⟩ := hout i₁ r₂ hr₂
              (fun hm => hmem (List.mem_cons_of_mem _ hm))
            exact ⟨rf, hrf, by rw [hrfi, hinc₂]⟩
          · intro i₁ r₁ hr hmem
            rcases List.mem_cons.1 hmem with h₂ | h₂
            · subst h₂
              rw [h₀] at hr
              obtain rfl : r = r₁ := Option.some.inj hr
              have hmid : ((updateAt i₁ (addInc links.length)
                  (updateAt lp.inputIdx (addOut links.length) rpcs))[i₁]?) =
                  some (addInc links.length
                    (if i₁ = lp.inputIdx then addOut links.length r else r)) := by
                rw [updateAt_getElem?, if_pos rfl, updateAt_getElem?]
                by_cases hio : i₁ = lp.inputIdx
                · rw [if_pos hio, if_pos hio, h₀]
                  rfl
                · rw [if_neg hio, if_neg hio, h₀]
                  rfl
              obtain ⟨rf, hrf, hrfi⟩ := hout i₁ _ hmid hni
              refine ⟨rf, hrf, ?_⟩
              rw [if_neg hnemp]
              refine ⟨links.length, ⟨lp.inputIdx, i₁, lp.message_name⟩, ?_, ?_, rfl⟩
              · rw [hrfi]
                by_cases hio : i₁ = lp.inputIdx
                · rw [if_pos hio]
                  rfl
                · rw [if_neg hio]
                  rfl
              · rw [hT]
                rw [List.getElem?_append_left (by simp)]
                exact List.getElem?_concat_length _ _
            · have hne₂ : ¬ i₁ = i := fun hh => hni (hh ▸ h₂)
              have hmid : ∃ r₂,
                  ((updateAt i (addInc links.length)
                    (updateAt lp.inputIdx (addOut links.length) rpcs))[i₁]?) = some r₂ ∧
                  r₂.incoming = r₁.incoming ∧ r₂.input = r₁.input := by
                rw [updateAt_getElem?, if_neg hne₂, updateAt_getElem?]
                by_cases hio : i₁ = lp.inputIdx
                · rw [if_pos hio, hr]
                  exact ⟨addOut links.length r₁, rfl, rfl, rfl⟩
                · rw [if_neg hio, hr]
                  exact ⟨r₁, rfl, rfl, rfl⟩
              obtain ⟨r₂, hr₂, hinc₂, hinp₂⟩ := hmid
              obtain ⟨rf, hrf, hrfc⟩ := hin i₁ r₂ hr₂ h₂
              refine ⟨rf, hrf, ?_⟩
              rw [← hinp₂]
              by_cases hie : r₂.input.name = "Empty"
              · rw [if_pos hie]
                rw [if_pos hie] at hrfc
                rw [hrfc, hinc₂]
              · rw [if_neg hie]
                rw [if_neg hie] at hrfc
                obtain ⟨k, l, hk₁, hk₂, hk₃⟩ := hrfc
                exact ⟨k, l, by rw [hk₁, hinc₂], hk₂, hk₃⟩
      · rw [resolve_aux_cons_err lps rpcs links i rest r h₀ hq] at hok
        cases hok

/-- C10: after a successful resolution from a fresh process state, the link
list holds exactly one link per operation whose input message name is not
`"Empty"` (its length equals the number of such operations), each such
operation's incoming collection is exactly the one link index whose link
points back at it, and `"Empty"`-input operations have empty incoming
collections. -/
theorem c10_one_link_per_consumer (bp : Blueprint) (di : DockerInfo) (c₁ : Core)
    (h : run_orchestrator Core.initial bp di = (c₁, none)) :
    c₁.links.length =
      (c₁.rpcs.filter (fun r => decide (r.input.name ≠ "Empty"))).length ∧
    ∀ (i : Nat) (r : RPCInfo), c₁.rpcs[i]? = some r →
      (r.input.name = "Empty" → r.incoming = []) ∧
      (r.input.name ≠ "Empty" →
        ∃ (k : Nat) (l : LinkInfo), r.incoming = [k] ∧
          c₁.links[k]? = some l ∧ l.outputIdx = i) := by
  obtain ⟨nodes, rpcs₁, lps, hext, hres⟩ := run_ok_destruct bp di c₁ h
  have hres' : resolve_aux lps rpcs₁ [] (List.range rpcs₁.length) =
      ((c₁.rpcs, c₁.links), none) := hres
  obtain ⟨⟨t, hT, hemp⟩, -⟩ := extract_nodes_spec nodes bp.nodes [] [] rpcs₁ lps hext
    (by intro lp hlp; cases hlp)
  have hempty : ∀ (j : Nat) (r : RPCInfo), rpcs₁[j]? = some r → r.incoming = [] := by
    intro j r hr
    have hmem : r ∈ rpcs₁ := by
      obtain ⟨hlt, hval⟩ := List.getElem?_eq_some.1 hr
      exact hval ▸ List.getElem_mem hlt
    rw [hT] at hmem
    exact (hemp r (by simpa using hmem)).1
  have hok : (resolve_aux lps rpcs₁ [] (List.range rpcs₁.length)).2 = none := by
    rw [hres']
  obtain ⟨-, hlen, -, hin⟩ := resolve_aux_incoming lps (List.range rpcs₁.length)
    rpcs₁ [] (List.nodup_range _) hok
  rw [hres'] at hlen hin
  have hkeys : ∀ j : Nat, ((c₁.rpcs[j]?).map keyOf) = ((rpcs₁[j]?).map keyOf) := by
    intro j
    have hk := resolve_aux_keyOf lps (List.range rpcs₁.length) rpcs₁ [] j
    rw [hres'] at hk
    exact hk
  have hlen₂ : c₁.rpcs.length = rpcs₁.length := by
    have hk := resolve_aux_length lps (List.range rpcs₁.length) rpcs₁ []
    rw [hres'] at hk
    exact hk
  constructor
  · have hflt : (c₁.rpcs.filter (fun r => decide (r.input.name ≠ "Empty"))).length =
        (rpcs₁.filter (fun r => decide (r.input.name ≠ "Empty"))).length := by
      rw [← countP_range_nonEmpty, ← countP_range_nonEmpty, hlen₂]
      exact List.countP_congr (fun j _ => by rw [nonEmptyAt_congr j (hkeys j)])
    rw [hflt, ← countP_range_nonEmpty]
    simpa using hlen
  · intro i r hr
    have hlt : i < rpcs₁.length := by
      have h₂ := (List.getElem?_eq_some.1 hr).1
      omega
    obtain ⟨r₀, hr₀⟩ : ∃ r₀, rpcs₁[i]? = some r₀ :=
      ⟨rpcs₁[i], List.getElem?_eq_getElem hlt⟩
    have hk := hkeys i
    rw [hr, hr₀] at hk
    simp only [Option.map_some'] at hk
    obtain ⟨-, -, hinp, -⟩ := keyOf_fields (Option.some.inj hk)
    have hname : r.input.name = r₀.input.name := by rw [hinp]
    obtain ⟨rf, hrf, hcase⟩ := hin i r₀ hr₀ (List.mem_range.2 hlt)
    have hrfr : rf = r := Option.some.inj (hrf.symm.trans hr)
    subst hrfr
    have h₀inc : r₀.incoming = [] := hempty i r₀ hr₀
    by_cases hie : r₀.input.name = "Empty"
    · rw [if_pos hie] at hcase
      constructor
      · intro _
        rw [hcase, h₀inc]
      · intro hne
        exact absurd (hname.trans hie) hne
    · rw [if_neg hie] at hcase
      obtain ⟨k, l, hk₁, hk₂, hk₃⟩ := hcase
      constructor
      · intro hemp₁
        exact absurd (hname.symm.trans hemp₁) hie
      · intro _
        exact ⟨k, l, by rw [hk₁, h₀inc]; rfl, hk₂, hk₃⟩

/-- C10 witness: on Scenario B the final state has one link for the one
non-`"Empty"`-input operation, and `"B".Consume` (index 1, input `"Data"`)
has incoming exactly `[0]` with the stored link `⟨0, 1, "Data"⟩` pointing
back at index 1. -/
theorem c10_witness :
    (run_orchestrator Core.initial bpB diB).1.links.length =
      ((run_orchestrator Core.initial bpB diB).1.rpcs.filter
        (fun r => decide (r.input.name ≠ "Empty"))).length ∧
    (((⟨nB, "Consume", ⟨"Data", false⟩, ⟨"Out", false⟩, [0], []⟩ : RPCInfo).input.name =
        "Empty" →
      (⟨nB, "Consume", ⟨"Data", false⟩, ⟨"Out", false⟩, [0], []⟩ : RPCInfo).incoming = []) ∧
     ((⟨nB, "Consume", ⟨"Data", false⟩, ⟨"Out", false⟩, [0], []⟩ : RPCInfo).input.name ≠
        "Empty" →
      ∃ (k : Nat) (l : LinkInfo),
        (⟨nB, "Consume", ⟨"Data", false⟩, ⟨"Out", false⟩, [0], []⟩ : RPCInfo).incoming = [k] ∧
        (run_orchestrator Core.initial bpB diB).1.links[k]? = some l ∧ l.outputIdx = 1)) :=
  ⟨(c10_one_link_per_consumer bpB diB (run_orchestrator Core.initial bpB diB).1 (by decide)).1,
   (c10_one_link_per_consumer bpB diB (run_orchestrator Core.initial bpB diB).1 (by decide)).2
     1 ⟨nB, "Consume", ⟨"Data", false⟩, ⟨"Out", false⟩, [0], []⟩ (by decide)⟩

/-! Concrete scenario theorems. -/

/-- C8: on Scenario A (one container `"A"`, blueprint operation `"Solve"` with
input `"Empty"`, output `"Result"`, no connections) resolution from a fresh
process state succeeds, producing exactly one operation with empty incoming
and outgoing collections and no links. -/
theorem c8_scenario_a :
    run_orchestrator Core.initial bpA diA =
      (⟨[("A", nA)], [⟨nA, "Solve", ⟨"Empty", false⟩, ⟨"Result", false⟩, [], []⟩], []⟩, none) := by
  decide

/-- C3 counterexample: running the same pair of documents twice, the second
run through a freshly constructed `Core()` (whose class-attribute collections
are the ones the first run filled), does not succeed the second time. -/
theorem c3_counterexample :
    ¬ (run_orchestrator (run_orchestrator Core.initial bpA diA).1 bpA diA).2 = none := by
  decide

/-- C3 amended: the first resolution run succeeds, but a second run over the
same documents through a fresh `Core` object fails with the duplicate-identity
error, because `Core.nodes`/`Core.rpcs`/`Core.links` are class attributes
retained across runs; identical repeated results would need a fresh process,
not merely a fresh object. -/
theorem c3_state_retention :
    (run_orchestrator Core.initial bpA diA).2 = none ∧
    (run_orchestrator (run_orchestrator Core.initial bpA diA).1 bpA diA).2 =
      some (OrchError.duplicateContainer "A") := by
  decide

/-- C4 counterexample: on the three-node input whose last operation fails the
cardinality check, resolution fails yet the resolver state is left partially
populated — the stored link list is non-empty and the first two operations'
outgoing/incoming collections already hold the link created before the
failure. -/
theorem c4_counterexample :
    (run_orchestrator Core.initial bpP diP).2.isSome = true ∧
    ¬ (run_orchestrator Core.initial bpP diP).1.links = [] := by
  decide

/-- C4 amended: when link resolution fails, the failure is not atomic: the
stored collections keep every mutation made before the failing operation.
Here `"C".Bad` fails with observed 0 / expected 1 after the `"A".Produce` →
`"B".Consume` link was already created, so the exposed state holds all three
extracted rpcs, the created link, and the populated outgoing/incoming
entries. -/
theorem c4_partial_state :
    run_orchestrator Core.initial bpP diP =
      (⟨[("A", ⟨"A", "10.0.0.1", 9000⟩), ("B", ⟨"B", "10.0.0.2", 9001⟩),
         ("C", ⟨"C", "10.0.0.3", 9002⟩)],
        [⟨⟨"A", "10.0.0.1", 9000⟩, "Produce", ⟨"Empty", false⟩, ⟨"Data", false⟩, [], [0]⟩,
         ⟨⟨"B", "10.0.0.2", 9001⟩, "Consume", ⟨"Data", false⟩, ⟨"Out", false⟩, [0], []⟩,
         ⟨⟨"C", "10.0.0.3", 9002⟩, "Bad", ⟨"Data", false⟩, ⟨"Out2", false⟩, [], []⟩],
        [⟨0, 1, "Data"⟩]⟩,
       some (OrchError.cardinalityError 2 0 1)) := by
  decide

/-- C7: the resolver never checks that a pending outgoing descriptor was
consumed: on `bpE`/`diB` the extraction pass emits the descriptor targeting
`"B"`'s undeclared operation `"Other"`, which matches no extracted operation,
yet resolution succeeds (every operation has `"Empty"` input, so every
incoming count is satisfied) and produces no link at all. -/
theorem c7_dangling_descriptor :
    (run_orchestrator Core.initial bpE diB).2 = none ∧
    (run_orchestrator Core.initial bpE diB).1.links = [] ∧
    (extract_nodes_aux [("A", nA), ("B", nB)] [] [] bpE.nodes).1.2 =
      [⟨0, "Data", nB, "Other"⟩] ∧
    ∀ r ∈ (extract_nodes_aux [("A", nA), ("B", nB)] [] [] bpE.nodes).1.1,
      matchCount [⟨0, "Data", nB, "Other"⟩] r = 0 := by
  decide

end AI4EU
